import Mathlib

/-!
# Verification of the Solodit findings crawler (`fetch_solodit.py`)

A shallow embedding of the crawler's incremental pagination-and-merge
protocol.  Pure control logic is translated function by function from the
Python source:

* `fetch_page`        — the per-page retry loop (`for attempt in range(MAX_RETRIES)`),
  with the three possible outcomes of one HTTP attempt modelled by
  `AttemptOutcome` (a 429 rate-limit response, a transport exception, or a
  successful JSON response).  Sleeping has no observable effect in the model.
* `processFindings`   — the `for finding in findings` body of `fetch_category`
  (max-id tracking, the incremental boundary check, accumulation).
* `fetch_loop`        — the `while not should_stop` page loop of
  `fetch_category`.  The Python loop has no a-priori bound (the server
  controls `totalPages`), so the model takes a fuel argument; running out of
  fuel yields the distinguished error `FetchError.outOfFuel`, so an `.ok`
  result is never the product of fuel exhaustion.
* `fetch_category`    — workbook selection, the loop, the batch append
  (`for finding in reversed(new_findings)`), save, and the state update.
* `main`              — runs both categories in sequence; an `.ok` result
  means execution reached the final `save_state(state)`, an `.error` means
  the process died on an uncaught exception before saving.

Machine integers: Python ints are unbounded, so record ids and watermarks are
`Int`.  Findings carry `id` plus the descriptive fields used by
`finding_to_row`; the thirteen fields that the control logic never reads
(scores, firm/protocol names, content, summary, counts, links, report date)
are collapsed into one opaque `payload` field, while the two derived fields
(`tags`, `finders` — comma-joined at write time by `extract_tags` /
`extract_finders`) are kept structurally.

The xlsx workbook is a header row plus data rows (`Worksheet`); a category's
file on disk is `Option Worksheet` (`none` = the file does not exist).  The
state file's per-category watermark (`"0"` sentinel string, parsed with
`int(...)`) is the `Int` argument `current_max_id`.
-/

namespace Solodit

/-- `PAGE_SIZE = 100` — fixed page size of every request. -/
def PAGE_SIZE : Nat := 100

/-- `MAX_RETRIES = 3` — bound of the attempt loop in `fetch_page`. -/
def MAX_RETRIES : Nat := 3

/-- `RETRY_DELAY = 5` — initial retry delay in seconds (sleeping is
unobservable in the model; kept for completeness). -/
def RETRY_DELAY : Nat := 5

/-- `REQUEST_DELAY = 3` — courtesy delay between page fetches (unobservable). -/
def REQUEST_DELAY : Nat := 3

/-- The fixed 19-column header row written into a fresh workbook. -/
def HEADERS : List String :=
  ["id", "slug", "title", "impact",
   "quality_score", "general_score",
   "firm_name", "protocol_name",
   "content", "summary",
   "tags", "finders", "finders_count",
   "source_link", "github_link", "pdf_link",
   "contest_link", "contest_prize_txt",
   "report_date"]

/-- One remote finding.  Only `id` participates in control flow
(`int(finding.get("id", 0))`); `tags`/`finders` are the nested structures
flattened by `extract_tags`/`extract_finders`; every other descriptive field
is opaque to the program and collapsed into `payload`. -/
structure Finding where
  id : Int
  slug : String := ""
  title : String := ""
  impact : String := ""
  tags : List String := []
  finders : List String := []
  payload : String := ""
deriving DecidableEq, Repr

/-- A finding whose id is the given natural number and whose payload is
defaulted — the shape of records in the simulated remote datasets. -/
def fnd (n : Nat) : Finding := { id := (n : Int) }

/-- `extract_tags`: comma-joined tag titles (`", ".join(...)`). -/
def extract_tags (f : Finding) : String := String.intercalate ", " f.tags

/-- `extract_finders`: comma-joined finder handles (`", ".join(...)`). -/
def extract_finders (f : Finding) : String := String.intercalate ", " f.finders

/-- One data row of the workbook, as produced by `finding_to_row`: the id,
the verbatim descriptive fields, the two derived comma-joined strings, and
the opaque remainder. -/
structure XRow where
  id : Int
  slug : String
  title : String
  impact : String
  tags : String
  finders : String
  payload : String
deriving DecidableEq, Repr

/-- `finding_to_row`: convert a finding to the row appended to the sheet. -/
def finding_to_row (f : Finding) : XRow :=
  ⟨f.id, f.slug, f.title, f.impact, extract_tags f, extract_finders f, f.payload⟩

/-- An open workbook / worksheet: the header row and the data rows below it
(`min_row=2` onward). -/
structure Worksheet where
  header : List String
  data : List XRow
deriving DecidableEq, Repr

/-- `create_workbook_with_headers`: a fresh workbook holding only `HEADERS`. -/
def create_workbook_with_headers : Worksheet := ⟨HEADERS, []⟩

/-- `load_or_create_workbook(filepath)`: load the file if it exists, else a
fresh workbook with the header row. -/
def load_or_create_workbook (file : Option Worksheet) : Worksheet :=
  match file with
  | some ws => ws
  | none => create_workbook_with_headers

/-- The `rateLimit` object of a response (`remaining` defaults to 20).  Only
inspected by the self-throttling sleep in `fetch_page`, which has no
observable effect. -/
structure RateLimitInfo where
  remaining : Nat := 20
  reset : Nat := 0
deriving DecidableEq, Repr

/-- A parsed successful response body: `data.get("findings", [])`,
`metadata.get("totalResults", 0)`, `metadata.get("totalPages", 0)` — the
fields already carry the Python `.get` defaults, so a response whose
metadata lacks `totalPages` is modelled by `totalPages = 0`. -/
structure PageResponse where
  findings : List Finding := []
  totalResults : Nat := 0
  totalPages : Nat := 0
  rateLimit : RateLimitInfo := {}
deriving DecidableEq, Repr

/-- The observable outcome of one HTTP attempt inside `fetch_page`:
a 429 status, a `requests.exceptions.RequestException`, or a 2xx JSON body. -/
inductive AttemptOutcome
  | rateLimited
  | transientFailure
  | success (data : PageResponse)
deriving DecidableEq, Repr

/-- Failure modes of the embedded fetch machinery.  `transport` is the
uncaught `raise` on the last retry attempt of `fetch_page`; `outOfFuel` is a
modelling artifact marking that the page loop's fuel ran out (the Python
loop is unbounded), so it never occurs in a run given sufficient fuel. -/
inductive FetchError
  | transport
  | outOfFuel
deriving DecidableEq, Repr

/-- The body of `for attempt in range(MAX_RETRIES)` in `fetch_page`.
`outcomes i` is the outcome of the request made on loop iteration `i`; note
that a 429 executes `continue`, which advances to the next iteration and so
consumes one unit of the shared attempt budget exactly like a transport
failure does.  Falling off the end of the loop is `return None` (`.ok none`);
a transport failure on the last iteration is `raise` (`.error .transport`).
`fuel` starts at `MAX_RETRIES` and counts the remaining iterations, so the
invariant `attempt + fuel = MAX_RETRIES` holds at every call. -/
def fetch_page_go (outcomes : Nat → AttemptOutcome) :
    Nat → Nat → Except FetchError (Option PageResponse)
  | _, 0 => .ok none
  | attempt, fuel + 1 =>
    match outcomes attempt with
    | .rateLimited => fetch_page_go outcomes (attempt + 1) fuel
    | .success d => .ok (some d)
    | .transientFailure =>
        if attempt < MAX_RETRIES - 1 then fetch_page_go outcomes (attempt + 1) fuel
        else .error .transport

/-- `fetch_page`: fetch one page given the stream of per-attempt outcomes.
The page number and filter are fixed for the whole call — every retry
re-sends the same payload, so the page number never advances inside here. -/
def fetch_page (outcomes : Nat → AttemptOutcome) :
    Except FetchError (Option PageResponse) :=
  fetch_page_go outcomes 0 MAX_RETRIES

/-- The mutable locals of `fetch_category`'s page loop: `new_findings`
(accumulated in delivery order), `new_max_id`, `total_fetched`. -/
structure LoopState where
  new_findings : List Finding
  new_max_id : Int
  total_fetched : Nat
deriving DecidableEq, Repr

/-- `if finding_id > new_max_id: new_max_id = finding_id`. -/
def updMax (m : Int) (f : Finding) : Int := if f.id > m then f.id else m

/-- Whether a record is consumed as new rather than triggering the boundary
stop: the negation of `not is_initial_fetch and finding_id <= current_max_id`. -/
def keep (is_initial : Bool) (current_max_id : Int) (f : Finding) : Bool :=
  !(!is_initial && decide (f.id ≤ current_max_id))

/-- The `for finding in findings` body of `fetch_category`: update the max-id
tracker, then either hit the incremental boundary (returning `true` for
`should_stop`, consuming no further records of the page) or append the
record and continue. -/
def processFindings (is_initial : Bool) (current_max_id : Int) :
    List Finding → LoopState → LoopState × Bool
  | [], st => (st, false)
  | f :: rest, st =>
    let st1 : LoopState := { st with new_max_id := updMax st.new_max_id f }
    if !is_initial && decide (f.id ≤ current_max_id) then
      (st1, true)
    else
      processFindings is_initial current_max_id rest
        { st1 with
            new_findings := st1.new_findings ++ [f],
            total_fetched := st1.total_fetched + 1 }

/-- The `while not should_stop` loop of `fetch_category`.  `fetchResult page`
is the result of `fetch_page` for that page number: an exception (which
propagates uncaught out of the loop), no data (`if not data: break`), or a
response.  An empty findings list breaks; after processing, a set stop flag
or `page >= total_pages` breaks; otherwise the next page is fetched.
Recursion is on `fuel`; exhaustion is the artificial `.error .outOfFuel`. -/
def fetch_loop (fetchResult : Nat → Except FetchError (Option PageResponse))
    (is_initial : Bool) (current_max_id : Int) :
    Nat → Nat → LoopState → Except FetchError LoopState
  | 0, _, _ => .error .outOfFuel
  | fuel + 1, page, st =>
    match fetchResult page with
    | .error e => .error e
    | .ok none => .ok st
    | .ok (some data) =>
      if data.findings.isEmpty then .ok st
      else if (processFindings is_initial current_max_id data.findings st).2 then
        .ok (processFindings is_initial current_max_id data.findings st).1
      else if data.totalPages ≤ page then
        .ok (processFindings is_initial current_max_id data.findings st).1
      else
        fetch_loop fetchResult is_initial current_max_id fuel (page + 1)
          (processFindings is_initial current_max_id data.findings st).1

/-- The externally visible effects of one `fetch_category` call: the
category's file after the call (`none` if it still does not exist — the
workbook is only saved when `new_findings` is non-empty), the watermark
written into `state[max_id_key]`, the updated cumulative `state[count_key]`,
and the function's return value `len(new_findings)`. -/
structure CategoryResult where
  file : Option Worksheet
  max_id : Int
  count : Nat
  returned : Nat
deriving DecidableEq, Repr

/-- The workbook opened at the start of `fetch_category` (its local `wb`):
on an initial fetch (`current_max_id == 0`) a *fresh* workbook is created
regardless of whether the file exists; otherwise the existing file is loaded
(or created with headers if missing). -/
def category_workbook (file : Option Worksheet) (current_max_id : Int) : Worksheet :=
  if current_max_id = 0 then create_workbook_with_headers
  else load_or_create_workbook file

/-- `fetch_category`: open the workbook (`category_workbook`), run the page
loop starting at page 1 with `new_max_id = current_max_id` (`is_initial` is
`current_max_id == 0`); afterwards the new findings are appended
oldest-first (`for finding in reversed(new_findings)`) and the workbook is
saved — but only if there is at least one new finding.  The state updates
are `state[max_id_key] = str(new_max_id)` and the incremented count; the
return value is `len(new_findings)`.  An exception from a page fetch
propagates (the `match` error arm), skipping append, save and state
update. -/
def fetch_category (fetchResult : Nat → Except FetchError (Option PageResponse))
    (file : Option Worksheet) (current_max_id : Int) (count0 : Nat)
    (fuel : Nat) : Except FetchError CategoryResult :=
  match fetch_loop fetchResult (decide (current_max_id = 0)) current_max_id fuel 1
      ⟨[], current_max_id, 0⟩ with
  | .error e => .error e
  | .ok st =>
    .ok ⟨(if st.new_findings.isEmpty then file
          else some ⟨(category_workbook file current_max_id).header,
                     (category_workbook file current_max_id).data ++
                       (st.new_findings.reverse).map finding_to_row⟩),
         st.new_max_id,
         count0 + st.new_findings.length,
         st.new_findings.length⟩

/-- The persisted state relevant to the sync (`last_run` is a timestamp with
no control-flow role and is omitted): the two string-encoded watermarks,
parsed with `int(...)`, and the two cumulative counts. -/
structure AppState where
  high_medium_max_id : Int
  low_gas_max_id : Int
  high_medium_count : Nat
  low_gas_count : Nat
deriving DecidableEq, Repr

/-- What a completed run leaves behind: the state as written by the final
`save_state(state)`, both category files, and the printed total of new
findings. -/
structure MainResult where
  state : AppState
  hmFile : Option Worksheet
  lgFile : Option Worksheet
  total_new : Nat
deriving DecidableEq, Repr

/-- `main`: HIGH/MEDIUM category, then LOW/GAS category, then
`save_state(state)`.  Neither `fetch_category` call is wrapped in a handler,
so an exception from either aborts the run before the final save: an
`.error` result means no state was saved and (for a first-category failure)
the second category never ran. -/
def main (hmRemote lgRemote : Nat → Except FetchError (Option PageResponse))
    (state0 : AppState) (hmFile0 lgFile0 : Option Worksheet) (fuel : Nat) :
    Except FetchError MainResult :=
  match fetch_category hmRemote hmFile0 state0.high_medium_max_id
          state0.high_medium_count fuel with
  | .error e => .error e
  | .ok r1 =>
    match fetch_category lgRemote lgFile0 state0.low_gas_max_id
            state0.low_gas_count fuel with
    | .error e => .error e
    | .ok r2 =>
      .ok ⟨⟨r1.max_id, r2.max_id, r1.count, r2.count⟩,
           r1.file, r2.file, r1.returned + r2.returned⟩

/-! ## Simulated remote datasets

A well-behaved remote serving a fixed recency-descending list `L`:
page `p` holds the `p`-th chunk of `PAGE_SIZE` records and every response
reports the consistent page count `⌈|L| / PAGE_SIZE⌉`.  Every page fetch
succeeds on the first attempt. -/

/-- The slice of `L` served as page `page` (pages are numbered from 1). -/
def paginate (L : List Finding) (page : Nat) : List Finding :=
  (L.drop ((page - 1) * PAGE_SIZE)).take PAGE_SIZE

/-- `⌈|L| / PAGE_SIZE⌉`, the `metadata.totalPages` of a consistent remote. -/
def totalPagesOf (L : List Finding) : Nat :=
  (L.length + PAGE_SIZE - 1) / PAGE_SIZE

/-- A consistent, always-successful remote serving `L` newest-first. -/
def remoteOf (L : List Finding) : Nat → Except FetchError (Option PageResponse) :=
  fun page => .ok (some { findings := paginate L page,
                          totalResults := L.length,
                          totalPages := totalPagesOf L })

/-- The findings with ids `base + len, base + len - 1, …, base + 1`, in that
(recency-descending) order. -/
def descFrom (base len : Nat) : List Finding :=
  (List.range len).map (fun i => fnd (base + len - i))

/-- The findings with ids `base + 1, base + 2, …, base + len`, ascending. -/
def ascFrom (base len : Nat) : List Finding :=
  (List.range len).map (fun i => fnd (base + 1 + i))

/-- A successful response body holding the given findings and declared page
count. -/
def pageOf (fs : List Finding) (tp : Nat) : PageResponse :=
  { findings := fs, totalResults := fs.length, totalPages := tp }

/-- A remote whose page 1 succeeds immediately (one finding, id 10, two
declared pages) and whose page 2 hits a transport exception on every
attempt, so `fetch_page` exhausts its retry budget and re-raises. -/
def remote_hm_fatal : Nat → Except FetchError (Option PageResponse) :=
  fun page =>
    if page = 1 then fetch_page (fun _ => .success (pageOf [fnd 10] 2))
    else fetch_page (fun _ => .transientFailure)

/-- Same page 1, but page 2 is rate-limited on every attempt, so the 429
branch consumes the whole attempt budget and `fetch_page` falls off its loop
returning no data. -/
def remote_hm_truncated : Nat → Except FetchError (Option PageResponse) :=
  fun page =>
    if page = 1 then fetch_page (fun _ => .success (pageOf [fnd 10] 2))
    else fetch_page (fun _ => .rateLimited)

/-! ## Lemmas: the max-id tracker and the boundary predicate -/

theorem updMax_eq_max (m : Int) (f : Finding) : updMax m f = max m f.id := by
  unfold updMax
  rcases le_or_lt f.id m with h | h
  · rw [if_neg (not_lt.mpr h), max_eq_left h]
  · rw [if_pos h, max_eq_right h.le]

theorem le_updMax (m : Int) (f : Finding) : m ≤ updMax m f := by
  rw [updMax_eq_max]; exact le_max_left _ _

theorem updMax_of_le {m : Int} {f : Finding} (h : f.id ≤ m) : updMax m f = m := by
  rw [updMax_eq_max]; exact max_eq_left h

theorem le_foldl_updMax : ∀ (l : List Finding) (m : Int), m ≤ l.foldl updMax m
  | [], _ => le_refl _
  | f :: l, m => le_trans (le_updMax m f) (le_foldl_updMax l (updMax m f))

theorem foldl_updMax_ge_mem :
    ∀ {l : List Finding} {f : Finding}, f ∈ l → ∀ m : Int, f.id ≤ l.foldl updMax m := by
  intro l
  induction l with
  | nil => intro f h; cases h
  | cons g l ih =>
    intro f h m
    simp only [List.foldl_cons]
    rcases List.mem_cons.mp h with h | h
    · subst h
      exact le_trans (by rw [updMax_eq_max]; exact le_max_right _ _) (le_foldl_updMax l _)
    · exact ih h _

theorem keep_true (w : Int) (f : Finding) : keep true w f = true := rfl

theorem keep_false (w : Int) (f : Finding) : keep false w f = decide (w < f.id) := by
  unfold keep
  rw [Bool.not_false, Bool.true_and, ← decide_not, decide_eq_decide]
  exact not_le

/-! ## Lemmas: takeWhile bookkeeping -/

theorem takeWhile_of_all {α : Type} {p : α → Bool} :
    ∀ {l : List α}, (∀ x ∈ l, p x = true) → l.takeWhile p = l := by
  intro l h
  exact List.takeWhile_eq_self_iff.mpr h

theorem takeWhile_append_of_all {α : Type} {p : α → Bool} :
    ∀ {l₁ : List α} (l₂ : List α), (∀ x ∈ l₁, p x = true) →
      (l₁ ++ l₂).takeWhile p = l₁ ++ l₂.takeWhile p := by
  intro l₁
  induction l₁ with
  | nil => intro l₂ _; rfl
  | cons a l ih =>
    intro l₂ h
    rw [List.cons_append, List.takeWhile_cons_of_pos (h a (List.mem_cons_self a l)),
      ih l₂ (fun x hx => h x (List.mem_cons_of_mem a hx)), List.cons_append]

theorem takeWhile_append_of_any {α : Type} {p : α → Bool} :
    ∀ {l₁ : List α} (l₂ : List α), l₁.any (fun x => !p x) = true →
      (l₁ ++ l₂).takeWhile p = l₁.takeWhile p := by
  intro l₁
  induction l₁ with
  | nil => intro l₂ h; simp at h
  | cons a l ih =>
    intro l₂ h
    by_cases ha : p a = true
    · rw [List.cons_append, List.takeWhile_cons_of_pos ha, List.takeWhile_cons_of_pos ha]
      have : l.any (fun x => !p x) = true := by
        rcases List.any_eq_true.mp h with ⟨x, hx, hpx⟩
        rcases List.mem_cons.mp hx with rfl | hx
        · rw [ha] at hpx; simp at hpx
        · exact List.any_eq_true.mpr ⟨x, hx, hpx⟩
      rw [ih l₂ this]
    · rw [List.cons_append, List.takeWhile_cons_of_neg ha, List.takeWhile_cons_of_neg ha]

/-! ## Lemmas: the inner record loop -/

/-- `processFindings` never decreases the max-id tracker. -/
theorem processFindings_max_le (is_initial : Bool) (w : Int) :
    ∀ (l : List Finding) (st : LoopState),
      st.new_max_id ≤ (processFindings is_initial w l st).1.new_max_id := by
  intro l
  induction l with
  | nil => intro st; exact le_refl _
  | cons f rest ih =>
    intro st
    unfold processFindings
    by_cases hc : (!is_initial && decide (f.id ≤ w)) = true
    · rw [if_pos hc]; exact le_updMax _ _
    · rw [if_neg hc]
      exact le_trans (le_updMax st.new_max_id f) (ih _)

/-- Characterization of the inner loop, assuming the tracker already
dominates the watermark (true on entry, where it *is* the watermark): the
accumulated records are the `takeWhile` of the kept-prefix, the tracker
folds `updMax` over exactly that prefix (a boundary record's id is examined
but cannot raise the tracker), and the stop flag is set iff some record of
the page fails `keep`. -/
theorem processFindings_eq (is_initial : Bool) (w : Int) :
    ∀ (l : List Finding) (st : LoopState), w ≤ st.new_max_id →
      processFindings is_initial w l st =
        (⟨st.new_findings ++ l.takeWhile (keep is_initial w),
          (l.takeWhile (keep is_initial w)).foldl updMax st.new_max_id,
          st.total_fetched + (l.takeWhile (keep is_initial w)).length⟩,
         l.any (fun f => !keep is_initial w f)) := by
  intro l
  induction l with
  | nil =>
    intro st _
    simp only [processFindings, List.takeWhile_nil, List.append_nil, List.foldl_nil,
      List.length_nil, Nat.add_zero, List.any_nil]
  | cons f rest ih =>
    intro st hw
    unfold processFindings
    by_cases hc : (!is_initial && decide (f.id ≤ w)) = true
    · rw [if_pos hc]
      have hkeep : keep is_initial w f = false := by
        unfold keep; rw [hc]; rfl
      have hid : f.id ≤ w := of_decide_eq_true (Bool.and_elim_right hc)
      rw [List.takeWhile_cons_of_neg (by rw [hkeep]; simp)]
      simp only [List.append_nil, List.foldl_nil, List.length_nil, Nat.add_zero,
        List.any_cons, hkeep, Bool.not_false, Bool.true_or]
      rw [updMax_of_le (le_trans hid hw)]
    · rw [if_neg hc]
      have hkeep : keep is_initial w f = true := by
        unfold keep; rw [Bool.eq_false_iff.mpr hc]; rfl
      have hw1 : w ≤ updMax st.new_max_id f := le_trans hw (le_updMax _ _)
      rw [ih _ hw1]
      rw [List.takeWhile_cons_of_pos hkeep]
      simp only [List.any_cons, hkeep, Bool.not_true, Bool.false_or,
        List.foldl_cons, List.length_cons]
      have h1 : st.new_findings ++ [f] ++ rest.takeWhile (keep is_initial w)
          = st.new_findings ++ f :: rest.takeWhile (keep is_initial w) := by
        rw [List.append_assoc, List.singleton_append]
      have h2 : st.total_fetched + 1 + (rest.takeWhile (keep is_initial w)).length
          = st.total_fetched + ((rest.takeWhile (keep is_initial w)).length + 1) := by
        omega
      rw [h1, h2]

/-! ## Lemmas: the page loop over a consistent remote -/

theorem length_le_of_totalPages_le {L : List Finding} {page : Nat}
    (h : totalPagesOf L ≤ page) : L.length ≤ page * PAGE_SIZE := by
  unfold totalPagesOf PAGE_SIZE at *
  have h2 := (Nat.div_le_iff_le_mul_add_pred (show 0 < 100 by norm_num)).mp h
  omega

/-- The page loop never decreases the max-id tracker, for an arbitrary
remote. -/
theorem fetch_loop_max_le (fetchResult : Nat → Except FetchError (Option PageResponse))
    (is_initial : Bool) (w : Int) :
    ∀ (fuel page : Nat) (st st' : LoopState),
      fetch_loop fetchResult is_initial w fuel page st = .ok st' →
      st.new_max_id ≤ st'.new_max_id := by
  intro fuel
  induction fuel with
  | zero =>
    intro page st st' h
    simp [fetch_loop] at h
  | succ fuel ih =>
    intro page st st' h
    unfold fetch_loop at h
    split at h
    · simp at h
    · injection h with h; exact h ▸ le_refl _
    · split at h
      · injection h with h; exact h ▸ le_refl _
      · split at h
        · injection h with h
          exact h ▸ processFindings_max_le is_initial w _ st
        · split at h
          · injection h with h
            exact h ▸ processFindings_max_le is_initial w _ st
          · exact le_trans (processFindings_max_le is_initial w _ st) (ih _ _ _ h)

/-- Full characterization of the page loop against the consistent remote
serving `L`, started at `page` with enough fuel: it succeeds, accumulating
the `keep`-prefix (`takeWhile`) of the unserved suffix of `L`, folding the
max-id tracker over exactly that prefix. -/
theorem fetch_loop_remoteOf (L : List Finding) (is_initial : Bool) (w : Int) :
    ∀ (fuel page : Nat) (st : LoopState),
      1 ≤ page → page ≤ totalPagesOf L + 1 → totalPagesOf L + 2 ≤ fuel + page →
      w ≤ st.new_max_id →
      fetch_loop (remoteOf L) is_initial w fuel page st =
        .ok ⟨st.new_findings ++ ((L.drop ((page - 1) * PAGE_SIZE)).takeWhile (keep is_initial w)),
             ((L.drop ((page - 1) * PAGE_SIZE)).takeWhile (keep is_initial w)).foldl updMax
               st.new_max_id,
             st.total_fetched +
               ((L.drop ((page - 1) * PAGE_SIZE)).takeWhile (keep is_initial w)).length⟩ := by
  intro fuel
  induction fuel with
  | zero =>
    intro page st h1 h2 h3 _
    exfalso; omega
  | succ fuel ih =>
    intro page st hpage hpt hfuel hw
    have h100 : PAGE_SIZE = 100 := rfl
    have hdrop : ((L.drop ((page - 1) * PAGE_SIZE)).drop PAGE_SIZE) = L.drop (page * PAGE_SIZE) := by
      rw [List.drop_drop, h100]
      congr 1
      omega
    have step : fetch_loop (remoteOf L) is_initial w (fuel + 1) page st =
        (if (paginate L page).isEmpty then Except.ok st
         else if (processFindings is_initial w (paginate L page) st).2 then
           Except.ok (processFindings is_initial w (paginate L page) st).1
         else if totalPagesOf L ≤ page then
           Except.ok (processFindings is_initial w (paginate L page) st).1
         else fetch_loop (remoteOf L) is_initial w fuel (page + 1)
           (processFindings is_initial w (paginate L page) st).1) := rfl
    rw [step]
    by_cases hemp : (paginate L page).isEmpty = true
    · rw [if_pos hemp]
      have hnil : L.drop ((page - 1) * PAGE_SIZE) = [] := by
        rcases List.take_eq_nil_iff.mp (List.isEmpty_iff.mp hemp) with h | h
        · exact absurd h (by decide)
        · exact h
      rw [hnil]
      simp
    · rw [if_neg hemp]
      have hCsplit : paginate L page ++ (L.drop (page * PAGE_SIZE))
          = L.drop ((page - 1) * PAGE_SIZE) := by
        rw [← hdrop]
        exact List.take_append_drop _ _
      rw [processFindings_eq is_initial w _ _ hw]
      by_cases hstop : (paginate L page).any (fun f => !keep is_initial w f) = true
      · simp only [hstop, if_true]
        rw [← hCsplit, takeWhile_append_of_any _ hstop]
      · rw [Bool.not_eq_true] at hstop
        simp only [hstop]
        rw [if_neg Bool.false_ne_true]
        have hall : ∀ x ∈ paginate L page, keep is_initial w x = true := by
          intro x hx
          have hx' := List.any_eq_false.mp hstop x hx
          simpa using hx'
        have htw : (paginate L page).takeWhile (keep is_initial w) = paginate L page :=
          takeWhile_of_all hall
        by_cases hlast : totalPagesOf L ≤ page
        · rw [if_pos hlast]
          have hR : L.drop (page * PAGE_SIZE) = [] :=
            List.drop_eq_nil_iff.mpr (length_le_of_totalPages_le hlast)
          have hSC : L.drop ((page - 1) * PAGE_SIZE) = paginate L page := by
            rw [← hCsplit, hR, List.append_nil]
          rw [hSC, htw]
        · rw [if_neg hlast]
          have hw1 : w ≤ ((paginate L page).takeWhile (keep is_initial w)).foldl updMax
              st.new_max_id :=
            le_trans hw (le_foldl_updMax _ _)
          rw [ih (page + 1) _ (by omega) (by omega) (by omega) hw1]
          rw [Nat.add_sub_cancel, ← hCsplit,
            takeWhile_append_of_all _ hall, htw]
          rw [List.foldl_append, List.length_append, List.append_assoc]
          rw [Nat.add_assoc]

/-- A whole `fetch_category` run against the consistent remote serving `L`,
with enough fuel: the new records are the `keep`-prefix of `L`, the saved
file (if anything was new) is the opened workbook plus the reversed batch,
the new watermark is the `updMax`-fold over the batch, and the count and
return value are the batch length. -/
theorem fetch_category_remoteOf (L : List Finding) (file : Option Worksheet) (w : Int)
    (c0 fuel : Nat) (hfuel : totalPagesOf L + 1 ≤ fuel) :
    fetch_category (remoteOf L) file w c0 fuel =
      .ok ⟨(if (L.takeWhile (keep (decide (w = 0)) w)).isEmpty then file
            else some ⟨(category_workbook file w).header,
                       (category_workbook file w).data ++
                         ((L.takeWhile (keep (decide (w = 0)) w)).reverse).map finding_to_row⟩),
           (L.takeWhile (keep (decide (w = 0)) w)).foldl updMax w,
           c0 + (L.takeWhile (keep (decide (w = 0)) w)).length,
           (L.takeWhile (keep (decide (w = 0)) w)).length⟩ := by
  unfold fetch_category
  rw [fetch_loop_remoteOf L (decide (w = 0)) w fuel 1 ⟨[], w, 0⟩ (le_refl 1) (by omega)
    (by omega) (le_refl w)]
  norm_num

/-! ## Lemmas: the simulated datasets -/

theorem fnd_id (n : Nat) : (fnd n).id = (n : Int) := rfl

theorem descFrom_zero (base : Nat) : descFrom base 0 = [] := rfl

theorem descFrom_succ (base len : Nat) :
    descFrom base (len + 1) = fnd (base + len + 1) :: descFrom base len := by
  unfold descFrom
  rw [List.range_succ_eq_map, List.map_cons, List.map_map]
  have h1 : ((fun i => fnd (base + (len + 1) - i)) ∘ Nat.succ)
      = (fun i => fnd (base + len - i)) := by
    funext i
    simp only [Function.comp_apply]
    have h2 : base + (len + 1) - Nat.succ i = base + len - i := by omega
    rw [h2]
  rw [h1]
  have h0 : base + (len + 1) - 0 = base + len + 1 := by omega
  simp only [h0]

theorem descFrom_length (base len : Nat) : (descFrom base len).length = len := by
  simp [descFrom]

theorem descFrom_append (base n : Nat) :
    ∀ m : Nat, descFrom base (n + m) = descFrom (base + n) m ++ descFrom base n := by
  intro m
  induction m with
  | zero =>
    rw [descFrom_zero, List.nil_append]
    rfl
  | succ m ih =>
    have h1 : n + (m + 1) = (n + m) + 1 := by omega
    rw [h1, descFrom_succ, ih, descFrom_succ, List.cons_append]
    have h2 : base + (n + m) + 1 = base + n + m + 1 := by omega
    rw [h2]

theorem descFrom_reverse (base : Nat) :
    ∀ m : Nat, (descFrom base m).reverse = ascFrom base m := by
  intro m
  induction m with
  | zero => rfl
  | succ m ih =>
    rw [descFrom_succ, List.reverse_cons, ih]
    unfold ascFrom
    rw [List.range_succ, List.map_append, List.map_singleton]
    have h1 : base + m + 1 = base + 1 + m := by omega
    rw [h1]

theorem ascFrom_append (base n m : Nat) :
    ascFrom base n ++ ascFrom (base + n) m = ascFrom base (n + m) := by
  unfold ascFrom
  rw [List.range_add, List.map_append, List.map_map]
  congr 1
  apply List.map_congr_left
  intro i _
  simp only [Function.comp_apply]
  have h1 : base + 1 + (n + i) = base + n + 1 + i := by omega
  rw [h1]

theorem mem_descFrom_id {base m : Nat} {f : Finding} (h : f ∈ descFrom base m) :
    (base : Int) < f.id ∧ f.id ≤ ((base + m : Nat) : Int) := by
  unfold descFrom at h
  rcases List.mem_map.mp h with ⟨i, hi, hf⟩
  rw [List.mem_range] at hi
  subst hf
  rw [fnd_id]
  constructor
  · exact_mod_cast (by omega : base < base + m - i)
  · exact_mod_cast (by omega : base + m - i ≤ base + m)

theorem descFrom_foldl (base : Nat) :
    ∀ (m : Nat) (w : Int), 1 ≤ m →
      (descFrom base m).foldl updMax w = max w ((base + m : Nat) : Int) := by
  intro m
  induction m with
  | zero => intro w h; omega
  | succ m ih =>
    intro w _
    rw [descFrom_succ, List.foldl_cons, updMax_eq_max, fnd_id]
    rcases Nat.eq_zero_or_pos m with hm | hm
    · subst hm
      rw [descFrom_zero, List.foldl_nil]
    · rw [ih _ hm, max_assoc]
      have h2 : ((base + m : Nat) : Int) ≤ ((base + m + 1 : Nat) : Int) := by
        exact_mod_cast (by omega : base + m ≤ base + m + 1)
      rw [max_eq_left h2]
      have h3 : base + m + 1 = base + (m + 1) := by omega
      rw [h3]

/-- All records of `descFrom base m` are strictly above a watermark equal to
`base`, so the incremental `keep` accepts them all. -/
theorem descFrom_keep_all (base m : Nat) :
    ∀ f ∈ descFrom base m, keep false (base : Int) f = true := by
  intro f hf
  rw [keep_false]
  exact decide_eq_true (mem_descFrom_id hf).1

/-- An incremental sync with watermark `N` consumes exactly the `M` records
above `N` from a remote listing ids `N+M` down to `1`. -/
theorem descFrom_takeWhile (N M : Nat) :
    (descFrom 0 (N + M)).takeWhile (keep false (N : Int)) = descFrom N M := by
  have h0 : descFrom 0 (N + M) = descFrom N M ++ descFrom 0 N := by
    have := descFrom_append 0 N M
    rw [Nat.zero_add] at this
    exact this
  rw [h0, takeWhile_append_of_all _ (by
    intro x hx
    rw [keep_false]
    exact decide_eq_true (mem_descFrom_id hx).1)]
  have h1 : (descFrom 0 N).takeWhile (keep false (N : Int)) = [] := by
    cases N with
    | zero => rfl
    | succ k =>
      rw [descFrom_succ]
      apply List.takeWhile_cons_of_neg
      rw [keep_false, fnd_id]
      simp only [decide_eq_true_eq]
      push_cast
      omega
  rw [h1, List.append_nil]

/-! ## Lemmas: order of records and rows -/

theorem finding_to_row_id (f : Finding) : (finding_to_row f).id = f.id := rfl

/-- Unfolding of one iteration of the `fetch_page` retry loop. -/
theorem fetch_page_go_step (outcomes : Nat → AttemptOutcome) (attempt fuel : Nat) :
    fetch_page_go outcomes attempt (fuel + 1) =
      match outcomes attempt with
      | .rateLimited => fetch_page_go outcomes (attempt + 1) fuel
      | .success d => .ok (some d)
      | .transientFailure =>
          if attempt < MAX_RETRIES - 1 then fetch_page_go outcomes (attempt + 1) fuel
          else .error .transport := rfl

/-- A prefix taken by `takeWhile` inherits adjacent-pair ordering. -/
theorem chain'_takeWhile {α : Type} {R : α → α → Prop} {p : α → Bool} {l : List α}
    (h : List.Chain' R l) : List.Chain' R (l.takeWhile p) := by
  have hsplit := List.takeWhile_append_dropWhile p l
  rw [← hsplit] at h
  exact (List.chain'_append.mp h).1

/-- In a strictly descending list, every element of the tail is below the
head. -/
theorem chain'_desc_lt_head :
    ∀ {a : Finding} {l : List Finding},
      List.Chain' (fun x y => y.id < x.id) (a :: l) → ∀ x ∈ l, x.id < a.id := by
  intro a l
  induction l generalizing a with
  | nil => intro _ x hx; cases hx
  | cons b l ih =>
    intro h x hx
    have hab : b.id < a.id := (List.chain'_cons.mp h).1
    rcases List.mem_cons.mp hx with rfl | hx
    · exact hab
    · exact lt_trans (ih (List.chain'_cons.mp h).2 x hx) hab

/-- On a strictly descending listing, stopping at the first record at or
below the watermark (takeWhile) collects the same records as filtering all
records above the watermark: nothing new is hiding past the boundary. -/
theorem takeWhile_eq_filter_of_desc (w : Int) :
    ∀ {l : List Finding}, List.Chain' (fun x y => y.id < x.id) l →
      l.takeWhile (fun f => decide (w < f.id)) = l.filter (fun f => decide (w < f.id)) := by
  intro l
  induction l with
  | nil => intro _; rfl
  | cons a l ih =>
    intro h
    by_cases ha : w < a.id
    · rw [List.takeWhile_cons_of_pos (p := fun f : Finding => decide (w < f.id))
          (decide_eq_true ha),
        List.filter_cons_of_pos (p := fun f : Finding => decide (w < f.id))
          (decide_eq_true ha), ih h.tail]
    · have hna : ¬((fun f : Finding => decide (w < f.id)) a = true) := by
        simpa using ha
      rw [List.takeWhile_cons_of_neg (p := fun f : Finding => decide (w < f.id)) hna,
        List.filter_cons_of_neg (p := fun f : Finding => decide (w < f.id)) hna]
      have hnil : l.filter (fun f => decide (w < f.id)) = [] := by
        rw [List.filter_eq_nil_iff]
        intro x hx
        have hxa := chain'_desc_lt_head h x hx
        simp only [decide_eq_true_eq]
        push_neg at ha
        omega
      rw [hnil]

theorem pageOf_findings (fs : List Finding) (tp : Nat) : (pageOf fs tp).findings = fs := rfl

theorem pageOf_totalPages (fs : List Finding) (tp : Nat) : (pageOf fs tp).totalPages = tp := rfl

/-- One unfolding of the page loop at a page whose fetch succeeds. -/
theorem fetch_loop_step (fetchResult : Nat → Except FetchError (Option PageResponse))
    (is_initial : Bool) (w : Int) (fuel page : Nat) (st : LoopState)
    (data : PageResponse) (h : fetchResult page = .ok (some data)) :
    fetch_loop fetchResult is_initial w (fuel + 1) page st =
      (if data.findings.isEmpty then .ok st
       else if (processFindings is_initial w data.findings st).2 then
         .ok (processFindings is_initial w data.findings st).1
       else if data.totalPages ≤ page then
         .ok (processFindings is_initial w data.findings st).1
       else fetch_loop fetchResult is_initial w fuel (page + 1)
         (processFindings is_initial w data.findings st).1) := by
  conv_lhs => unfold fetch_loop
  rw [h]

theorem descFrom_isEmpty_false (base m : Nat) (hm : 1 ≤ m) :
    (descFrom base m).isEmpty = false := by
  cases m with
  | zero => omega
  | succ k =>
    rw [descFrom_succ]
    rfl

/-- Inverting a successful `fetch_category`: it came from a successful page
loop, and the result fields are determined by the final loop state. -/
theorem fetch_category_ok_inv (fetchResult : Nat → Except FetchError (Option PageResponse))
    (file : Option Worksheet) (w : Int) (c0 fuel : Nat) (r : CategoryResult)
    (h : fetch_category fetchResult file w c0 fuel = .ok r) :
    ∃ st, fetch_loop fetchResult (decide (w = 0)) w fuel 1 ⟨[], w, 0⟩ = .ok st ∧
      r = ⟨(if st.new_findings.isEmpty then file
            else some ⟨(category_workbook file w).header,
                       (category_workbook file w).data ++
                         (st.new_findings.reverse).map finding_to_row⟩),
           st.new_max_id, c0 + st.new_findings.length, st.new_findings.length⟩ := by
  unfold fetch_category at h
  split at h
  next e heq => simp at h
  next st heq => exact ⟨st, heq, (Except.ok.inj h).symm⟩

/-- When the first two attempts of `fetch_page` each fail — in any mix of
rate-limits (which `continue`) and transport failures (which are caught and
retried on a non-final attempt) — the call reduces to the final attempt. -/
theorem fetch_page_skip_two (outcomes : Nat → AttemptOutcome)
    (h0 : outcomes 0 = .rateLimited ∨ outcomes 0 = .transientFailure)
    (h1 : outcomes 1 = .rateLimited ∨ outcomes 1 = .transientFailure) :
    fetch_page outcomes = fetch_page_go outcomes 2 (0 + 1) := by
  have e0 : fetch_page outcomes = fetch_page_go outcomes 0 (2 + 1) := rfl
  rw [e0]
  conv_lhs => rw [fetch_page_go_step]
  rcases h0 with h0 | h0
  · rw [h0]
    show fetch_page_go outcomes 1 (1 + 1) = _
    conv_lhs => rw [fetch_page_go_step]
    rcases h1 with h1 | h1
    · rw [h1]
    · rw [h1]
      rfl
  · rw [h0]
    show fetch_page_go outcomes 1 (1 + 1) = _
    conv_lhs => rw [fetch_page_go_step]
    rcases h1 with h1 | h1
    · rw [h1]
    · rw [h1]
      rfl

/-! ## Claims -/

/-- C1 (counterexample): the claim states that an unrecoverable page-fetch
failure (retry budget exhausted) is non-fatal at the category level — the
records accumulated before the failure are still persisted, the other
category still runs, and the final state save still executes.  In the code,
exhausting `MAX_RETRIES` on transport failures executes `raise` on the last
attempt, and neither `fetch_category` nor `main` catches it.  Concretely:
the HIGH/MEDIUM category fetches one finding (id 10) on page 1, page 2
exhausts its retries, and the whole run aborts with the uncaught exception —
`main` yields `.error .transport`, not `.ok`: the accumulated record is not
persisted, the LOW/GAS category (which has a record, id 4, available) never
runs, and `save_state` is never reached. -/
theorem C1_counterexample :
    main remote_hm_fatal (remoteOf [fnd 4]) ⟨0, 0, 0, 0⟩ none none 3 =
      .error .transport := rfl

/-- C1 (amended): a page-fetch failure is non-fatal at the category level
only when `fetch_page` returns no data.  (1) When none of the `MAX_RETRIES`
attempts succeeds, `fetch_page` returns no data precisely when the *final*
attempt was a rate-limit response — the earlier attempts may be any mix of
rate-limits and caught transport failures — and re-raises precisely when the
final attempt was a transport failure.  (2) A no-data page truncates the
page loop, keeping the already-accumulated records and tracker state.
(3) A re-raised exception propagates through `fetch_category` into `main`,
aborting the run before the other category and before the state save.
(4) End to end, the no-data scenario is non-fatal: page 2 of the
HIGH/MEDIUM remote yields no data, yet the page-1 record (id 10) is
persisted with watermark 10, the LOW/GAS category syncs its record (id 4),
and the final state is saved with both watermarks and counts.
(5) That scenario's page 2 is indeed the no-data case. -/
theorem C1_truncation_on_no_data :
    (∀ outcomes : Nat → AttemptOutcome,
      (∀ i, i < MAX_RETRIES →
        outcomes i = .rateLimited ∨ outcomes i = .transientFailure) →
      ((fetch_page outcomes = .ok none ↔
          outcomes (MAX_RETRIES - 1) = .rateLimited) ∧
       (fetch_page outcomes = .error .transport ↔
          outcomes (MAX_RETRIES - 1) = .transientFailure)))
    ∧ (∀ (fetchResult : Nat → Except FetchError (Option PageResponse))
         (is_initial : Bool) (w : Int) (fuel page : Nat) (st : LoopState),
        fetchResult page = .ok none →
        fetch_loop fetchResult is_initial w (fuel + 1) page st = .ok st)
    ∧ (∀ (hmRemote lgRemote : Nat → Except FetchError (Option PageResponse))
         (state0 : AppState) (hmFile0 lgFile0 : Option Worksheet)
         (fuel : Nat) (e : FetchError),
        fetch_category hmRemote hmFile0 state0.high_medium_max_id
            state0.high_medium_count fuel = .error e →
        main hmRemote lgRemote state0 hmFile0 lgFile0 fuel = .error e)
    ∧ main remote_hm_truncated (remoteOf [fnd 4]) ⟨0, 0, 0, 0⟩ none none 3 =
        .ok ⟨⟨10, 4, 1, 1⟩, some ⟨HEADERS, [finding_to_row (fnd 10)]⟩,
             some ⟨HEADERS, [finding_to_row (fnd 4)]⟩, 2⟩
    ∧ remote_hm_truncated 2 = .ok none := by
  refine ⟨?_, ?_, ?_, rfl, rfl⟩
  · intro outcomes h
    have h0 := h 0 (by norm_num [MAX_RETRIES])
    have h1 := h 1 (by norm_num [MAX_RETRIES])
    have h2 := h 2 (by norm_num [MAX_RETRIES])
    have hskip := fetch_page_skip_two outcomes h0 h1
    rw [show MAX_RETRIES - 1 = 2 from rfl]
    rcases h2 with h2 | h2
    · have hv : fetch_page outcomes = .ok none := by
        rw [hskip]
        conv_lhs => rw [fetch_page_go_step]
        rw [h2]
        rfl
      refine ⟨⟨fun _ => h2, fun _ => hv⟩, ?_, ?_⟩
      · intro hc
        rw [hv] at hc
        simp at hc
      · intro hc
        rw [h2] at hc
        simp at hc
    · have hv : fetch_page outcomes = .error .transport := by
        rw [hskip]
        conv_lhs => rw [fetch_page_go_step]
        rw [h2]
        rfl
      refine ⟨⟨?_, ?_⟩, fun _ => h2, fun _ => hv⟩
      · intro hc
        rw [hv] at hc
        simp at hc
      · intro hc
        rw [h2] at hc
        simp at hc
  · intro fetchResult is_initial w fuel page st hnone
    conv_lhs => unfold fetch_loop
    rw [hnone]
  · intro hmRemote lgRemote state0 hmFile0 lgFile0 fuel e herr
    unfold main
    rw [herr]

theorem C1_truncation_on_no_data_witness :
    (∀ i, i < MAX_RETRIES →
      (fun i => if i = 0 then AttemptOutcome.transientFailure
        else AttemptOutcome.rateLimited) i = AttemptOutcome.rateLimited ∨
      (fun i => if i = 0 then AttemptOutcome.transientFailure
        else AttemptOutcome.rateLimited) i = AttemptOutcome.transientFailure) ∧
    fetch_page (fun i => if i = 0 then AttemptOutcome.transientFailure
      else AttemptOutcome.rateLimited) = .ok none :=
  ⟨fun i _ => by by_cases h : i = 0 <;> simp [h],
   ((C1_truncation_on_no_data.1
      (fun i => if i = 0 then AttemptOutcome.transientFailure
        else AttemptOutcome.rateLimited)
      (fun i _ => by by_cases h : i = 0 <;> simp [h])).1).mpr rfl⟩

/-- C3 (counterexample): the claim states a rate-limit signal never counts
against the retry budget and is never surfaced as an error or failed page.
In the code the 429 branch ends in `continue`, which advances
`for attempt in range(MAX_RETRIES)`: three consecutive rate-limits exhaust
the loop and `fetch_page` returns `None` — a failed page for the caller —
even when a success would have been available on the very next attempt. -/
theorem C3_counterexample :
    fetch_page (fun _ => .rateLimited) = .ok none ∧
    fetch_page (fun i => if i < MAX_RETRIES then AttemptOutcome.rateLimited
      else .success (pageOf [fnd 1] 1)) = .ok none := ⟨rfl, rfl⟩

/-- C3 (amended): a rate-limit signal makes `fetch_page` wait and re-send
the *same* page (the page number is fixed for the entire call, so it never
advances), and fewer than `MAX_RETRIES` consecutive rate-limits followed by
a success recover without surfacing anything to the caller; but each
rate-limited attempt consumes one iteration of the shared
`range(MAX_RETRIES)` budget, and `MAX_RETRIES` consecutive rate-limits
exhaust it, making `fetch_page` return no data — a failed page for the
caller (the counterexample). -/
theorem C3_rate_limit_wait_retry (k : Nat) (hk : k < MAX_RETRIES)
    (outcomes : Nat → AttemptOutcome) (d : PageResponse)
    (hbefore : ∀ i, i < k → outcomes i = .rateLimited)
    (hit : outcomes k = .success d) :
    fetch_page outcomes = .ok (some d) := by
  have h0 : fetch_page outcomes = fetch_page_go outcomes 0 (2 + 1) := rfl
  have hk3 : k < 3 := hk
  rw [h0]
  interval_cases k
  · rw [fetch_page_go_step, hit]
  · rw [fetch_page_go_step, hbefore 0 (by norm_num)]
    show fetch_page_go outcomes 1 (1 + 1) = _
    rw [fetch_page_go_step, hit]
  · rw [fetch_page_go_step, hbefore 0 (by norm_num)]
    show fetch_page_go outcomes 1 (1 + 1) = _
    rw [fetch_page_go_step, hbefore 1 (by norm_num)]
    show fetch_page_go outcomes 2 (0 + 1) = _
    rw [fetch_page_go_step, hit]

theorem C3_rate_limit_wait_retry_witness :
    1 < MAX_RETRIES ∧
    fetch_page (fun i => if i = 0 then AttemptOutcome.rateLimited
      else .success (pageOf [fnd 2] 1)) = .ok (some (pageOf [fnd 2] 1)) :=
  ⟨by norm_num [MAX_RETRIES],
   C3_rate_limit_wait_retry 1 (by norm_num [MAX_RETRIES])
     (fun i => if i = 0 then AttemptOutcome.rateLimited else .success (pageOf [fnd 2] 1))
     (pageOf [fnd 2] 1)
     (by intro i hi; interval_cases i; rfl)
     rfl⟩

/-- C9 (counterexample): the claim states that for *every* category sync an
existing store file is opened for appending with its rows preserved, and a
fresh store is created only when the file is missing.  But on an initial
sync (`current_max_id == 0`) `fetch_category` creates a fresh workbook
without consulting the file: here the file exists and holds the row for
id 5, the remote serves one finding (id 7), and the saved file contains only
the id-7 row — the pre-existing row is gone, not appended after. -/
theorem C9_counterexample :
    fetch_category (remoteOf [fnd 7]) (some ⟨HEADERS, [finding_to_row (fnd 5)]⟩) 0 1 2 =
      .ok ⟨some ⟨HEADERS, [finding_to_row (fnd 7)]⟩, 7, 2, 1⟩ ∧
    finding_to_row (fnd 5) ∉ [finding_to_row (fnd 7)] := by
  constructor
  · rfl
  · decide

/-- C10: a page response whose metadata lacks `totalPages` (the parse
defaults it to 0; modelled by `pageOf fs 0`) makes the sync loop stop right
after processing the first page — even when that page holds a full
`PAGE_SIZE` batch — because the reached-last-page check `page >= total_pages`
compares `1 ≥ 0`; the pages served by `rest` are never requested (the result
is independent of `rest` and of the remaining fuel). -/
theorem C10_defaulted_totalPages_stops_loop
    (fs : List Finding) (hlen : fs.length = PAGE_SIZE)
    (rest : Nat → Except FetchError (Option PageResponse)) (fuel : Nat) :
    fetch_loop (fun p => if p = 1 then .ok (some (pageOf fs 0)) else rest p)
      true 0 (fuel + 1) 1 ⟨[], 0, 0⟩ =
      .ok ⟨fs, fs.foldl updMax 0, fs.length⟩ := by
  have hne : fs.isEmpty = false := by
    cases fs with
    | nil => simp [PAGE_SIZE] at hlen
    | cons a l => rfl
  have htw : fs.takeWhile (keep true 0) = fs := takeWhile_of_all (fun x _ => keep_true 0 x)
  have hany : (fs.any fun f => !keep true 0 f) = false := by
    rw [List.any_eq_false]
    intro x _
    rw [keep_true]
    simp
  rw [fetch_loop_step _ _ _ _ _ _ (pageOf fs 0) (by rw [if_pos rfl]),
    pageOf_findings, pageOf_totalPages, hne]
  rw [if_neg Bool.false_ne_true]
  rw [processFindings_eq true 0 fs ⟨[], 0, 0⟩ (le_refl 0)]
  simp [htw, hany]

theorem C10_defaulted_totalPages_stops_loop_witness :
    (descFrom 0 100).length = PAGE_SIZE ∧
    fetch_loop (fun p => if p = 1 then .ok (some (pageOf (descFrom 0 100) 0))
        else .ok (some (pageOf (descFrom 100 100) 0)))
      true 0 (4 + 1) 1 ⟨[], 0, 0⟩ =
      .ok ⟨descFrom 0 100, (descFrom 0 100).foldl updMax 0, (descFrom 0 100).length⟩ :=
  ⟨by rw [descFrom_length]; rfl,
   C10_defaulted_totalPages_stops_loop (descFrom 0 100) (by rw [descFrom_length]; rfl)
     (fun _ => .ok (some (pageOf (descFrom 100 100) 0))) 4⟩

/-- C4: on an incremental sync with watermark `X` (non-sentinel), a
delivered page `pre ++ b :: post` whose records `pre` all lie above `X` and
whose record `b` has id exactly `X`: `b` is not appended (the accumulated
list is `pre`, and `b ∉ pre`), not counted (`total_fetched = pre.length`),
and the loop stops — the result is independent of the rest of the page
(`post`), of the second page (`page2`) and of the remaining fuel.  The
new/seen boundary is strictly greater-than. -/
theorem C4_boundary_tie_break (X : Int) (hX : X ≠ 0)
    (pre post page2 : List Finding)
    (hpre : ∀ f ∈ pre, X < f.id) (b : Finding) (hb : b.id = X) (fuel : Nat) :
    fetch_loop (fun p => if p = 1 then .ok (some (pageOf (pre ++ b :: post) 2))
        else .ok (some (pageOf page2 2)))
      (decide (X = 0)) X (fuel + 1) 1 ⟨[], X, 0⟩ =
      .ok ⟨pre, pre.foldl updMax X, pre.length⟩ ∧ b ∉ pre := by
  have hdec : decide (X = 0) = false := decide_eq_false hX
  have hbkeep : keep false X b = false := by
    rw [keep_false, hb]
    simp
  have hprekeep : ∀ f ∈ pre, keep false X f = true := by
    intro f hf
    rw [keep_false]
    exact decide_eq_true (hpre f hf)
  constructor
  · rw [hdec]
    rw [fetch_loop_step _ _ _ _ _ _ (pageOf (pre ++ b :: post) 2) (by rw [if_pos rfl]),
      pageOf_findings, pageOf_totalPages]
    have hne : (pre ++ b :: post).isEmpty = false := by simp
    rw [hne, if_neg Bool.false_ne_true]
    rw [processFindings_eq false X _ _ (le_refl X)]
    have h1 : (pre ++ b :: post).takeWhile (keep false X) = pre := by
      rw [takeWhile_append_of_all _ hprekeep,
        List.takeWhile_cons_of_neg (by rw [hbkeep]; exact Bool.false_ne_true),
        List.append_nil]
    have h2 : ((pre ++ b :: post).any fun f => !keep false X f) = true := by
      rw [List.any_eq_true]
      exact ⟨b, by simp, by rw [hbkeep]; rfl⟩
    simp [h1, h2]
  · intro hmem
    have hlt := hpre b hmem
    rw [hb] at hlt
    exact lt_irrefl X hlt

theorem C4_boundary_tie_break_witness :
    ((3 : Int) ≠ 0 ∧ (∀ f ∈ [fnd 5, fnd 4], (3 : Int) < f.id) ∧ (fnd 3).id = 3) ∧
    (fetch_loop (fun p => if p = 1 then .ok (some (pageOf ([fnd 5, fnd 4] ++ fnd 3 :: [fnd 2]) 2))
        else .ok (some (pageOf [fnd 1] 2)))
      (decide ((3 : Int) = 0)) 3 (0 + 1) 1 ⟨[], 3, 0⟩ =
      .ok ⟨[fnd 5, fnd 4], [fnd 5, fnd 4].foldl updMax 3, [fnd 5, fnd 4].length⟩ ∧
      fnd 3 ∉ [fnd 5, fnd 4]) :=
  ⟨⟨by decide, by decide, rfl⟩,
   C4_boundary_tie_break 3 (by decide) [fnd 5, fnd 4] [fnd 2] [fnd 1]
     (by decide) (fnd 3) rfl 0⟩

/-- C5: (monotone watermark) for any remote, any watermark, any file and any
successful `fetch_category` run, the watermark written back to the state is
at least the watermark before the run; and (max characterization) against
the consistent remote serving `L`, the watermark after the run equals the
prior watermark folded through `updMax` over exactly the records consumed as
new — the maximum of the prior value and the ids fetched this run — and in
particular it is unchanged when no new record was found. -/
theorem C5_watermark_monotone_and_max :
    (∀ (fetchResult : Nat → Except FetchError (Option PageResponse))
       (file : Option Worksheet) (w : Int) (c0 fuel : Nat) (r : CategoryResult),
        fetch_category fetchResult file w c0 fuel = .ok r → w ≤ r.max_id)
    ∧ (∀ (L : List Finding) (file : Option Worksheet) (w : Int) (c0 fuel : Nat)
         (r : CategoryResult), totalPagesOf L + 1 ≤ fuel →
        fetch_category (remoteOf L) file w c0 fuel = .ok r →
        r.max_id = (L.takeWhile (keep (decide (w = 0)) w)).foldl updMax w ∧
        (r.returned = 0 → r.max_id = w)) := by
  constructor
  · intro fr file w c0 fuel r h
    obtain ⟨st, hloop, hr⟩ := fetch_category_ok_inv fr file w c0 fuel r h
    subst hr
    exact fetch_loop_max_le fr (decide (w = 0)) w fuel 1 ⟨[], w, 0⟩ st hloop
  · intro L file w c0 fuel r hfuel h
    rw [fetch_category_remoteOf L file w c0 fuel hfuel] at h
    replace h := (Except.ok.inj h).symm
    subst h
    refine ⟨rfl, ?_⟩
    intro h0
    have hnil : L.takeWhile (keep (decide (w = 0)) w) = [] := List.length_eq_zero.mp h0
    rw [hnil]
    rfl

theorem C5_watermark_monotone_and_max_witness :
    fetch_category (remoteOf [fnd 5]) none 2 0 2 =
      .ok ⟨some ⟨HEADERS, [finding_to_row (fnd 5)]⟩, 5, 1, 1⟩ ∧
    (2 : Int) ≤ (⟨some ⟨HEADERS, [finding_to_row (fnd 5)]⟩, 5, 1, 1⟩ : CategoryResult).max_id :=
  ⟨rfl, C5_watermark_monotone_and_max.1 (remoteOf [fnd 5]) none 2 0 2 _ rfl⟩

/-- C6: with the watermark at the `0` sentinel the sync is initial, the
boundary comparison is skipped entirely (`keep true` accepts every record,
whatever its id), and every page of the remote is walked: the run returns
every record of `L` and folds the tracker over all of them.  Concrete
instance: a remote with 250 records (ids 250 down to 1, served as pages of
100/100/50 by the consistent pagination) yields exactly 250 new records,
stored ascending, and sets the watermark to 250. -/
theorem C6_initial_sync_walks_all_pages :
    (∀ (L : List Finding) (file : Option Worksheet) (c0 : Nat),
        fetch_category (remoteOf L) file 0 c0 (totalPagesOf L + 1) =
          .ok ⟨(if L.isEmpty then file else some ⟨HEADERS, L.reverse.map finding_to_row⟩),
               L.foldl updMax 0, c0 + L.length, L.length⟩)
    ∧ fetch_category (remoteOf (descFrom 0 250)) none 0 0 (totalPagesOf (descFrom 0 250) + 1) =
        .ok ⟨some ⟨HEADERS, (ascFrom 0 250).map finding_to_row⟩, (250 : Int), 250, 250⟩ := by
  have hgen : ∀ (L : List Finding) (file : Option Worksheet) (c0 : Nat),
      fetch_category (remoteOf L) file 0 c0 (totalPagesOf L + 1) =
        .ok ⟨(if L.isEmpty then file else some ⟨HEADERS, L.reverse.map finding_to_row⟩),
             L.foldl updMax 0, c0 + L.length, L.length⟩ := by
    intro L file c0
    rw [fetch_category_remoteOf L file 0 c0 _ (le_refl _)]
    rw [show decide ((0 : Int) = 0) = true from rfl]
    rw [takeWhile_of_all (fun x _ => keep_true 0 x)]
    have hwb : category_workbook file 0 = create_workbook_with_headers := by
      unfold category_workbook
      rw [if_pos rfl]
    rw [hwb]
    simp [create_workbook_with_headers]
  refine ⟨hgen, ?_⟩
  rw [hgen (descFrom 0 250) none 0]
  rw [descFrom_isEmpty_false 0 250 (by norm_num)]
  rw [if_neg Bool.false_ne_true]
  rw [descFrom_reverse]
  have hfold : (descFrom 0 250).foldl updMax 0 = (250 : Int) := by
    rw [descFrom_foldl 0 250 0 (by norm_num)]
    norm_num
  rw [hfold, descFrom_length]

theorem C6_initial_sync_walks_all_pages_witness :
    fetch_category (remoteOf [fnd 2, fnd 1]) none 0 0 (totalPagesOf [fnd 2, fnd 1] + 1) =
      .ok ⟨(if ([fnd 2, fnd 1] : List Finding).isEmpty then none
            else some ⟨HEADERS, ([fnd 2, fnd 1] : List Finding).reverse.map finding_to_row⟩),
           ([fnd 2, fnd 1] : List Finding).foldl updMax 0,
           0 + ([fnd 2, fnd 1] : List Finding).length,
           ([fnd 2, fnd 1] : List Finding).length⟩ :=
  C6_initial_sync_walks_all_pages.1 [fnd 2, fnd 1] none 0

/-- C9 (amended): the open-vs-create choice is made first on the watermark
and only then on file existence.  The helper `load_or_create_workbook` does
behave as the claim describes — an existing file is opened with its rows
intact, a missing one is created with the fixed header row — but
`fetch_category` consults it only on an *incremental* sync (watermark ≠ 0),
where any saved file preserves the opened workbook's rows as a prefix; on an
*initial* sync the saved file is a fresh header-only workbook plus the new
rows, regardless of whether the file existed (the counterexample). -/
theorem C9_open_or_create_semantics
    (fetchResult : Nat → Except FetchError (Option PageResponse))
    (file : Option Worksheet) (w : Int) (c0 fuel : Nat) (r : CategoryResult)
    (h : fetch_category fetchResult file w c0 fuel = .ok r) :
    (∀ ws, load_or_create_workbook (some ws) = ws) ∧
    load_or_create_workbook none = create_workbook_with_headers ∧
    (w ≠ 0 → r.file = file ∨ ∃ rows, r.file =
        some ⟨(load_or_create_workbook file).header,
              (load_or_create_workbook file).data ++ rows⟩) ∧
    (w = 0 → r.file = file ∨ ∃ rows, r.file = some ⟨HEADERS, rows⟩) := by
  obtain ⟨st, hloop, hr⟩ := fetch_category_ok_inv fetchResult file w c0 fuel r h
  subst hr
  refine ⟨fun ws => rfl, rfl, ?_, ?_⟩
  · intro hw
    by_cases hemp : st.new_findings.isEmpty = true
    · left
      simp [hemp]
    · right
      refine ⟨(st.new_findings.reverse).map finding_to_row, ?_⟩
      have hwb : category_workbook file w = load_or_create_workbook file := by
        unfold category_workbook
        rw [if_neg hw]
      simp [hemp, hwb]
  · intro hw
    subst hw
    by_cases hemp : st.new_findings.isEmpty = true
    · left
      simp [hemp]
    · right
      refine ⟨(st.new_findings.reverse).map finding_to_row, ?_⟩
      have hwb : category_workbook file 0 = create_workbook_with_headers := by
        unfold category_workbook
        rw [if_pos rfl]
      simp [hemp, hwb, create_workbook_with_headers]

theorem C9_open_or_create_semantics_witness :
    fetch_category (remoteOf [fnd 9]) (some ⟨HEADERS, [finding_to_row (fnd 5)]⟩) 5 1 2 =
      .ok ⟨some ⟨HEADERS, [finding_to_row (fnd 5), finding_to_row (fnd 9)]⟩, 9, 2, 1⟩ ∧
    ((∀ ws, load_or_create_workbook (some ws) = ws) ∧
     load_or_create_workbook none = create_workbook_with_headers ∧
     ((5 : Int) ≠ 0 →
        (⟨some ⟨HEADERS, [finding_to_row (fnd 5), finding_to_row (fnd 9)]⟩, 9, 2, 1⟩ :
            CategoryResult).file = some ⟨HEADERS, [finding_to_row (fnd 5)]⟩ ∨
        ∃ rows,
          (⟨some ⟨HEADERS, [finding_to_row (fnd 5), finding_to_row (fnd 9)]⟩, 9, 2, 1⟩ :
              CategoryResult).file =
            some ⟨(load_or_create_workbook (some ⟨HEADERS, [finding_to_row (fnd 5)]⟩)).header,
                  (load_or_create_workbook (some ⟨HEADERS, [finding_to_row (fnd 5)]⟩)).data
                    ++ rows⟩) ∧
     ((5 : Int) = 0 →
        (⟨some ⟨HEADERS, [finding_to_row (fnd 5), finding_to_row (fnd 9)]⟩, 9, 2, 1⟩ :
            CategoryResult).file = some ⟨HEADERS, [finding_to_row (fnd 5)]⟩ ∨
        ∃ rows,
          (⟨some ⟨HEADERS, [finding_to_row (fnd 5), finding_to_row (fnd 9)]⟩, 9, 2, 1⟩ :
              CategoryResult).file = some ⟨HEADERS, rows⟩)) :=
  ⟨rfl,
   C9_open_or_create_semantics (remoteOf [fnd 9]) (some ⟨HEADERS, [finding_to_row (fnd 5)]⟩)
     5 1 2 _ rfl⟩

/-- C7: the remote delivers newest-first (strictly descending ids,
`hdesc`), yet the batch appended to the store within a run is in ascending
id order, and — provided the store's existing rows are ascending and at or
below the watermark, as every previous run leaves them — ids increase
monotonically from top to bottom of the whole resulting store: the saved
file is the old rows followed by an ascending batch, and the combined row
list is strictly ascending in id. -/
theorem C7_ascending_append_order (L : List Finding)
    (hdesc : List.Chain' (fun x y => y.id < x.id) L)
    (w : Int) (hw : w ≠ 0) (hd : List String) (rows0 : List XRow)
    (hasc : List.Chain' (fun x y : XRow => x.id < y.id) rows0)
    (hbelow : ∀ x ∈ rows0, x.id ≤ w)
    (c0 : Nat) (r : CategoryResult)
    (h : fetch_category (remoteOf L) (some ⟨hd, rows0⟩) w c0 (totalPagesOf L + 1) = .ok r) :
    ∃ batch, r.file = some ⟨hd, rows0 ++ batch⟩ ∧
      List.Chain' (fun x y : XRow => x.id < y.id) (rows0 ++ batch) := by
  rw [fetch_category_remoteOf L _ w c0 _ (le_refl _)] at h
  rw [decide_eq_false hw] at h
  replace h := (Except.ok.inj h).symm
  subst h
  by_cases hemp : (L.takeWhile (keep false w)).isEmpty = true
  · refine ⟨[], ?_, ?_⟩
    · simp [hemp]
    · rw [List.append_nil]
      exact hasc
  · refine ⟨((L.takeWhile (keep false w)).reverse).map finding_to_row, ?_, ?_⟩
    · have hwb : category_workbook (some ⟨hd, rows0⟩) w = ⟨hd, rows0⟩ := by
        unfold category_workbook
        rw [if_neg hw]
        rfl
      simp [hemp, hwb]
    · rw [List.chain'_append]
      refine ⟨hasc, ?_, ?_⟩
      · refine (List.chain'_map finding_to_row).mpr ?_
        refine (List.chain'_reverse).mpr ?_
        exact chain'_takeWhile hdesc
      · intro x hx y hy
        have hx' : x ∈ rows0 := List.mem_of_mem_getLast? hx
        have hy' : y ∈ ((L.takeWhile (keep false w)).reverse).map finding_to_row :=
          List.mem_of_mem_head? hy
        rcases List.mem_map.mp hy' with ⟨f, hf, hfy⟩
        rw [List.mem_reverse] at hf
        have hkeepf : keep false w f = true := List.mem_takeWhile_imp hf
        rw [keep_false] at hkeepf
        have hwf : w < f.id := of_decide_eq_true hkeepf
        have hxw := hbelow x hx'
        rw [← hfy, finding_to_row_id]
        omega

theorem C7_ascending_append_order_witness :
    fetch_category (remoteOf [fnd 7, fnd 6]) (some ⟨HEADERS, [finding_to_row (fnd 5)]⟩)
      5 3 (totalPagesOf [fnd 7, fnd 6] + 1) =
      .ok ⟨some ⟨HEADERS, [finding_to_row (fnd 5), finding_to_row (fnd 6),
                          finding_to_row (fnd 7)]⟩, 7, 5, 2⟩ ∧
    ∃ batch,
      (⟨some ⟨HEADERS, [finding_to_row (fnd 5), finding_to_row (fnd 6),
                        finding_to_row (fnd 7)]⟩, 7, 5, 2⟩ : CategoryResult).file =
        some ⟨HEADERS, [finding_to_row (fnd 5)] ++ batch⟩ ∧
      List.Chain' (fun x y : XRow => x.id < y.id) ([finding_to_row (fnd 5)] ++ batch) :=
  ⟨rfl,
   C7_ascending_append_order [fnd 7, fnd 6]
     (List.chain'_cons.mpr ⟨by decide, List.chain'_singleton _⟩)
     5 (by decide) HEADERS [finding_to_row (fnd 5)]
     (List.chain'_singleton _)
     (by decide)
     3 _ rfl⟩

/-- C8: running the sync twice against the same remote data (ids all
positive, as the service assigns them) yields zero new records the second
time, an unchanged watermark, an unchanged file and an unchanged count —
whatever the starting watermark and file of the first run were. -/
theorem C8_idempotent_when_unchanged (L : List Finding)
    (hpos : ∀ f ∈ L, 0 < f.id) (file : Option Worksheet) (w : Int)
    (c0 : Nat) (r1 : CategoryResult)
    (h1 : fetch_category (remoteOf L) file w c0 (totalPagesOf L + 1) = .ok r1) :
    fetch_category (remoteOf L) r1.file r1.max_id r1.count (totalPagesOf L + 1) =
      .ok ⟨r1.file, r1.max_id, r1.count, 0⟩ := by
  rw [fetch_category_remoteOf L file w c0 _ (le_refl _)] at h1
  replace h1 := (Except.ok.inj h1).symm
  subst h1
  dsimp only
  rw [fetch_category_remoteOf _ _ _ _ _ (le_refl _)]
  cases L with
  | nil => simp
  | cons a l =>
    set w1 := ((a :: l).takeWhile (keep (decide (w = 0)) w)).foldl updMax w with hw1
    have hmax_ge : a.id ≤ w1 := by
      rw [hw1]
      by_cases hdec : w = 0
      · subst hdec
        rw [show decide ((0 : Int) = 0) = true from rfl,
          takeWhile_of_all (fun x _ => keep_true 0 x)]
        exact foldl_updMax_ge_mem (List.mem_cons_self a l) 0
      · rw [decide_eq_false hdec]
        by_cases hka : keep false w a = true
        · rw [List.takeWhile_cons_of_pos hka]
          exact foldl_updMax_ge_mem (List.mem_cons_self a _) w
        · have haw : a.id ≤ w := by
            rw [Bool.not_eq_true] at hka
            rw [keep_false] at hka
            exact le_of_not_lt (of_decide_eq_false hka)
          exact le_trans haw (le_foldl_updMax _ _)
    have hpos_a : 0 < a.id := hpos a (List.mem_cons_self a l)
    have hne : w1 ≠ 0 := by omega
    rw [decide_eq_false hne]
    have htw2 : (a :: l).takeWhile (keep false w1) = [] :=
      List.takeWhile_cons_of_neg (by
        rw [keep_false, decide_eq_false (not_lt.mpr hmax_ge)]
        exact Bool.false_ne_true)
    rw [htw2]
    simp

theorem C8_idempotent_when_unchanged_witness :
    (∀ f ∈ [fnd 5], (0 : Int) < f.id) ∧
    fetch_category (remoteOf [fnd 5]) none 0 0 (totalPagesOf [fnd 5] + 1) =
      .ok ⟨some ⟨HEADERS, [finding_to_row (fnd 5)]⟩, 5, 1, 1⟩ ∧
    fetch_category (remoteOf [fnd 5]) (some ⟨HEADERS, [finding_to_row (fnd 5)]⟩) 5 1
      (totalPagesOf [fnd 5] + 1) =
      .ok ⟨some ⟨HEADERS, [finding_to_row (fnd 5)]⟩, 5, 1, 0⟩ :=
  ⟨by decide, rfl,
   C8_idempotent_when_unchanged [fnd 5] (by decide) none 0 0
     ⟨some ⟨HEADERS, [finding_to_row (fnd 5)]⟩, 5, 1, 1⟩ rfl⟩

/-- C2: (scenario) for a simulated remote with ids `1..N` delivered
newest-first across the consistent pagination, an initial sync stores
exactly ids `1..N` in ascending order with watermark `N`; after `M` higher
ids appear, one incremental sync leaves the store holding exactly ids
`1..N+M`, each once, ascending, with watermark `N+M` and exactly `M` new
records.  (Equivalently) for any strictly descending remote listing and any
non-sentinel watermark `w > 0`, a successful run appends to the prior store
exactly the records with id strictly greater than `w` (`filter`), in
ascending order, and nothing else. -/
theorem C2_no_gaps_no_duplicates (N M : Nat) (hN : 1 ≤ N) :
    (fetch_category (remoteOf (descFrom 0 N)) none 0 0 (totalPagesOf (descFrom 0 N) + 1)
      = .ok ⟨some ⟨HEADERS, (ascFrom 0 N).map finding_to_row⟩, (N : Int), N, N⟩)
    ∧ (fetch_category (remoteOf (descFrom 0 (N + M)))
        (some ⟨HEADERS, (ascFrom 0 N).map finding_to_row⟩) (N : Int) N
        (totalPagesOf (descFrom 0 (N + M)) + 1)
      = .ok ⟨some ⟨HEADERS, (ascFrom 0 (N + M)).map finding_to_row⟩,
             ((N + M : Nat) : Int), N + M, M⟩)
    ∧ (∀ (L : List Finding) (w : Int), 0 < w →
        List.Chain' (fun x y => y.id < x.id) L →
        ∀ (file : Option Worksheet) (c0 : Nat),
          fetch_category (remoteOf L) file w c0 (totalPagesOf L + 1) =
            .ok ⟨(if (L.filter (fun f => decide (w < f.id))).isEmpty then file
                  else some ⟨(load_or_create_workbook file).header,
                             (load_or_create_workbook file).data ++
                               ((L.filter (fun f => decide (w < f.id))).reverse).map
                                 finding_to_row⟩),
                 (L.filter (fun f => decide (w < f.id))).foldl updMax w,
                 c0 + (L.filter (fun f => decide (w < f.id))).length,
                 (L.filter (fun f => decide (w < f.id))).length⟩) := by
  have hNe : ((N : Nat) : Int) ≠ 0 := by
    exact_mod_cast (by omega : N ≠ 0)
  refine ⟨?_, ?_, ?_⟩
  · rw [fetch_category_remoteOf _ _ _ _ _ (le_refl _)]
    rw [show decide ((0 : Int) = 0) = true from rfl]
    rw [takeWhile_of_all (l := descFrom 0 N) (fun x _ => keep_true 0 x)]
    rw [descFrom_isEmpty_false 0 N hN, if_neg Bool.false_ne_true]
    rw [descFrom_reverse, descFrom_length]
    have hfold : (descFrom 0 N).foldl updMax 0 = (N : Int) := by
      rw [descFrom_foldl 0 N 0 hN, Nat.zero_add]
      exact max_eq_right (Int.natCast_nonneg N)
    rw [hfold]
    have hwb : category_workbook none 0 = create_workbook_with_headers := by
      unfold category_workbook
      rw [if_pos rfl]
    rw [hwb]
    simp [create_workbook_with_headers]
  · rw [fetch_category_remoteOf _ _ _ _ _ (le_refl _)]
    rw [decide_eq_false hNe, descFrom_takeWhile N M]
    by_cases hM : M = 0
    · subst hM
      simp [descFrom_zero]
    · have hM1 : 1 ≤ M := by omega
      rw [descFrom_isEmpty_false N M hM1, if_neg Bool.false_ne_true]
      rw [descFrom_reverse, descFrom_length, descFrom_foldl N M _ hM1]
      have hwb : category_workbook (some ⟨HEADERS, (ascFrom 0 N).map finding_to_row⟩) (N : Int)
          = ⟨HEADERS, (ascFrom 0 N).map finding_to_row⟩ := by
        unfold category_workbook
        rw [if_neg hNe]
        rfl
      rw [hwb]
      have happ : ((ascFrom 0 N).map finding_to_row) ++ ((ascFrom N M).map finding_to_row)
          = (ascFrom 0 (N + M)).map finding_to_row := by
        rw [← List.map_append]
        have h0 := ascFrom_append 0 N M
        rw [Nat.zero_add] at h0
        rw [h0]
      have hmax : ((N : Nat) : Int) ⊔ ((N + M : Nat) : Int) = ((N + M : Nat) : Int) :=
        max_eq_right (by exact_mod_cast (by omega : N ≤ N + M))
      simp [happ, hmax]
  · intro L w hw hdesc file c0
    rw [fetch_category_remoteOf _ _ _ _ _ (le_refl _)]
    rw [decide_eq_false (by omega : w ≠ 0)]
    have hfun : keep false w = fun f : Finding => decide (w < f.id) := funext (keep_false w)
    rw [hfun, takeWhile_eq_filter_of_desc w hdesc]
    have hwb : category_workbook file w = load_or_create_workbook file := by
      unfold category_workbook
      rw [if_neg (by omega : ¬ w = 0)]
    rw [hwb]

theorem C2_no_gaps_no_duplicates_witness :
    1 ≤ 2 ∧
    (fetch_category (remoteOf (descFrom 0 2)) none 0 0 (totalPagesOf (descFrom 0 2) + 1)
      = .ok ⟨some ⟨HEADERS, (ascFrom 0 2).map finding_to_row⟩, ((2 : Nat) : Int), 2, 2⟩) ∧
    (fetch_category (remoteOf (descFrom 0 (2 + 1)))
        (some ⟨HEADERS, (ascFrom 0 2).map finding_to_row⟩) ((2 : Nat) : Int) 2
        (totalPagesOf (descFrom 0 (2 + 1)) + 1)
      = .ok ⟨some ⟨HEADERS, (ascFrom 0 (2 + 1)).map finding_to_row⟩,
             ((2 + 1 : Nat) : Int), 2 + 1, 1⟩) :=
  ⟨by norm_num, (C2_no_gaps_no_duplicates 2 1 (by norm_num)).1,
   (C2_no_gaps_no_duplicates 2 1 (by norm_num)).2.1⟩

end Solodit
